import Mathlib

/-!
Shallow embedding of the adaptive n-gram drafting engine of
`common/ngram-map.cpp`: the pattern-replay drafter
(`common_ngram_simple_draft`), the statistical n-gram cache
(`common_ngram_map_draft`) and the accept-feedback channel
(`common_ngram_map_accept`).

Tokens (`llama_token`) are opaque integers compared only for equality; we
embed them as `Int`.  The token history is a `List Token` read through
`tokAt`, whose out-of-bounds branch returns a default token (the C++ code
indexes `std::vector` directly; the safety claim shows the branch is
unreachable for well-formed states).  C++ mutation of the state structs by
reference becomes explicit state passing: each drafting function returns the
updated state together with the draft token list.
-/

/-- Tokens are opaque integer identifiers (`llama_token`), compared only
for equality. -/
abbrev Token := Int

/-- Read token `i` of the history.  The C++ code indexes the vector
directly; out of bounds we return the default token — the embedded
out-of-bounds branch. -/
def tokAt (inp : List Token) (i : Nat) : Token :=
  inp.getD i default

/-- The search pattern / key n-gram: the last `n - 1` history tokens
followed by the sampled token (lines 64-69 and 141-146 of
`ngram-map.cpp`; the loop runs `j` from `cur_len - n + 1` to
`cur_len - 1`). -/
def build_pattern (inp : List Token) (n : Nat) (sampled : Token) : List Token :=
  ((List.range (n - 1)).map (fun t => tokAt inp (inp.length - n + 1 + t))) ++ [sampled]

/-- Does `pattern` occur in `inp` starting at position `j`?  Mirrors the
inner comparison loop of the simple drafter (lines 77-83), which runs `k`
over `0 ..< pattern.size()`. -/
def pattern_match_at (inp pattern : List Token) (j : Nat) : Bool :=
  (List.range pattern.length).all (fun k => tokAt inp (j + k) == pattern.getD k default)

/-- Do the `n` key tokens occur in `inp` starting at position `i`?  Mirrors
the comparison loops of the map draft (lines 151-157, 176-182, 240-246),
which run `k` over `0 ..< n`. -/
def key_match_at (inp key_tokens : List Token) (n i : Nat) : Bool :=
  (List.range n).all (fun k => tokAt inp (i + k) == key_tokens.getD k default)

/-- Do the `m` tokens at `ibvk` equal the `m` tokens at `ibvv`?  Mirrors the
value m-gram comparison (lines 264-270). -/
def value_match_at (inp : List Token) (m ibvk ibvv : Nat) : Bool :=
  (List.range m).all (fun j => tokAt inp (ibvk + j) == tokAt inp (ibvv + j))

/-- Backward search loop shared by the drafter (line 76) and the cache
(line 150): try positions `start, start - 1, ..., 1` (position 0 is
excluded) and return the first position where `matchAt` holds, or 0 (the
"no match" sentinel) if none does. -/
def find_match_backward (matchAt : Nat → Bool) : Nat → Nat
  | 0 => 0
  | j + 1 => if matchAt (j + 1) then j + 1 else find_match_backward matchAt j

/-- Configuration of the simple drafter (`common_ngram_simple_config`). -/
structure common_ngram_simple_config where
  check_rate : Nat
  size_ngram : Nat
  size_mgram : Nat
deriving Repr, DecidableEq

/-- State of the simple drafter (`common_ngram_simple_state`). -/
structure common_ngram_simple_state where
  config : common_ngram_simple_config
  idx_last_check : Nat
deriving Repr, DecidableEq

/-- `common_ngram_simple_draft` (lines 37-109): pattern-replay drafting.
Returns the updated state (the C++ mutates `state` by reference) together
with the draft tokens. -/
def common_ngram_simple_draft (state : common_ngram_simple_state)
    (tokens : List Token) (sampled : Token) :
    common_ngram_simple_state × List Token :=
  let cur_len := tokens.length
  if state.idx_last_check + state.config.check_rate > cur_len then
    (state, [])
  else
    let n := state.config.size_ngram
    let m := state.config.size_mgram
    if cur_len ≤ n + m + 1 then
      (state, [])
    else
      let pattern := build_pattern tokens n sampled
      let state1 := { state with idx_last_check := cur_len }
      let match_pos := find_match_backward (pattern_match_at tokens pattern) (cur_len - n - 1)
      if match_pos = 0 then
        (state1, [])
      else
        let copy_max := min m (cur_len - (match_pos + n))
        if copy_max < n then
          (state1, [])
        else
          (state1, (List.range copy_max).map (fun j => tokAt tokens (match_pos + n + j)))

/-- `COMMON_NGRAM_MAX_VALUES` — the fixed per-key value-slot capacity.
Modelled from the spec: the constant lives in the header `ngram-map.h`,
which is not part of the sources here; the spec fixes the capacity at 4
("fixed array of ValueEntry (capacity = 4)"), matching the four slots the
debug output of `ngram-map.cpp` prints (lines 306-319). -/
def COMMON_NGRAM_MAX_VALUES : Nat := 4

/-- `COMMON_NGRAM_MAX_VALUE_COUNT` (line 116): saturation cap of the
`key_num` and `value_num` counters. -/
def COMMON_NGRAM_MAX_VALUE_COUNT : Nat := 16380

/-- Saturating counter increment, as on lines 205-206 and 279-280:
`min (c + 1) COMMON_NGRAM_MAX_VALUE_COUNT`. -/
def ngram_bump (c : Nat) : Nat :=
  min (c + 1) COMMON_NGRAM_MAX_VALUE_COUNT

/-- `common_ngram_map_value`: one candidate continuation m-gram of a key.
`value_idx` is the history index of its first-seen occurrence (0 = empty
slot), `value_num` its saturating occurrence count, `n_accepted` the
calibrated maximal draft length. -/
structure common_ngram_map_value where
  value_idx : Nat
  value_num : Nat
  n_accepted : Nat
deriving Repr, DecidableEq

instance : Inhabited common_ngram_map_value := ⟨⟨0, 0, 0⟩⟩

/-- `common_ngram_map_key`: one key n-gram with its statistics.  `key_idx`
anchors the key's tokens in history, `stat_idx` is the history index the
statistics have been folded up to, `key_num` the saturating hit count. -/
structure common_ngram_map_key where
  key_idx : Nat
  stat_idx : Nat
  key_num : Nat
  values : List common_ngram_map_value
deriving Repr, DecidableEq

instance : Inhabited common_ngram_map_key := ⟨⟨0, 0, 0, []⟩⟩

/-- `common_ngram_map`: the statistical n-gram cache.  The `last_draft_*`
fields are the "pending draft" reference consumed by the accept feedback. -/
structure common_ngram_map where
  size_key : Nat
  size_value : Nat
  check_rate : Nat
  min_hits : Nat
  key_only : Bool
  idx_last_check : Nat
  keys : List common_ngram_map_key
  last_draft_created : Bool
  last_draft_key_idx : Nat
  last_draft_value_idx : Nat
deriving Repr, DecidableEq

/-- The fresh key entry appended on lines 189-198: anchored at the found
match position, statistics folded up to 0, no hits, all value slots empty.
Modelled from the spec for the `value_idx` field: the C++ on lines 194-197
leaves `value_idx` to the struct's default initializer in the header
`ngram-map.h` (not among the sources); the spec states empty slots carry
`continuation_anchor = 0` ("all value slots empty (`continuation_anchor =
0`...)"). -/
def new_ngram_map_key (match_pos m : Nat) : common_ngram_map_key :=
  { key_idx := match_pos
    stat_idx := 0
    key_num := 0
    values := List.replicate COMMON_NGRAM_MAX_VALUES
      { value_idx := 0, value_num := 0, n_accepted := m } }

/-- The key-resolution loop of lines 175-187: the first stored key entry
whose `n` anchored tokens equal the current key tokens, or `none`. -/
def find_key_offset (inp key_tokens : List Token) (n : Nat) :
    List common_ngram_map_key → Option Nat
  | [] => none
  | k :: rest =>
    if key_match_at inp key_tokens n k.key_idx then some 0
    else (find_key_offset inp key_tokens n rest).map (fun i => i + 1)

/-- Lines 173-199: resolve the key entry, appending a fresh one (which then
sits at offset `keys.length`) when no stored entry matches. -/
def resolve_key_offset (inp key_tokens : List Token) (n m match_pos : Nat)
    (keys : List common_ngram_map_key) : Nat × List common_ngram_map_key :=
  match find_key_offset inp key_tokens n keys with
  | some i => (i, keys)
  | none => (keys.length, keys ++ [new_ngram_map_key match_pos m])

/-- The value-slot loop of lines 253-276: walk the slots in order; at the
first empty slot (`value_idx = 0`) report a claim, at the first occupied
slot whose m-gram matches the continuation at `ibvk` report a match.
Returns the slot index together with whether it was a fresh claim, or
`none` when all slots are occupied and none matches. -/
def find_value_slot (inp : List Token) (m ibvk : Nat) :
    List common_ngram_map_value → Option (Nat × Bool)
  | [] => none
  | val :: rest =>
    if val.value_idx = 0 then some (0, true)
    else if value_match_at inp m ibvk val.value_idx then some (0, false)
    else (find_value_slot inp m ibvk rest).map (fun p => (p.1 + 1, p.2))

/-- The saturating occurrence-count increment of lines 277-281, applied to
slot `v`. -/
def bump_value (vals : List common_ngram_map_value) (v : Nat) :
    List common_ngram_map_value :=
  match vals.get? v with
  | none => vals
  | some val => vals.set v { val with value_num := ngram_bump val.value_num }

/-- Lines 251-281, one refresh position: find or claim the slot of the
continuation starting at `ibvk`; a fresh claim initialises the slot with
`value_num = 0` and `n_accepted = m` (lines 258-260); in either case the
found slot's count is then bumped (lines 277-281). -/
def process_occurrence (inp : List Token) (m ibvk : Nat)
    (vals : List common_ngram_map_value) : List common_ngram_map_value :=
  match find_value_slot inp m ibvk vals with
  | none => vals
  | some (v, isNew) =>
    let vals1 := if isNew
      then vals.set v { value_idx := ibvk, value_num := 0, n_accepted := m }
      else vals
    bump_value vals1 v

/-- The positions visited by the statistics-refresh loop of line 238:
`for (size_t i = curr_key.stat_idx; i <= match_pos; ++i)`. -/
def refresh_positions (stat_idx match_pos : Nat) : List Nat :=
  (List.range (match_pos + 1 - stat_idx)).map (fun t => stat_idx + t)

/-- The statistics-refresh loop of lines 238-282: at every visited position
where the key n-gram occurs, fold the following m-gram into the value
slots. -/
def refresh_values (inp key_tokens : List Token) (n m stat_idx match_pos : Nat)
    (vals : List common_ngram_map_value) : List common_ngram_map_value :=
  (refresh_positions stat_idx match_pos).foldl
    (fun vs i => if key_match_at inp key_tokens n i then process_occurrence inp m (i + n) vs else vs)
    vals

/-- The slot-selection loop of lines 287-295: running maximum of the
occurrence counts with a strict-greater comparison, so ties keep the lower
slot index.  Accumulator `(max_occur, slot_max)` starts at `(0, 0)`. -/
def select_slot_go (v max_occur slot_max : Nat) :
    List common_ngram_map_value → Nat × Nat
  | [] => (max_occur, slot_max)
  | val :: rest =>
    if val.value_num > max_occur then select_slot_go (v + 1) val.value_num v rest
    else select_slot_go (v + 1) max_occur slot_max rest

/-- Lines 286-295: the winning slot and its occurrence count. -/
def select_slot (vals : List common_ngram_map_value) : Nat × Nat :=
  select_slot_go 0 0 0 vals

/-- The summation loop of lines 296-304: total occurrence count of all
slots other than `slot_max`. -/
def sum_other_go (v slot_max acc : Nat) :
    List common_ngram_map_value → Nat
  | [] => acc
  | val :: rest =>
    if v = slot_max then sum_other_go (v + 1) slot_max acc rest
    else sum_other_go (v + 1) slot_max (acc + val.value_num) rest

/-- Lines 296-304: `sum_occur`. -/
def sum_other (vals : List common_ngram_map_value) (slot_max : Nat) : Nat :=
  sum_other_go 0 slot_max 0 vals

/-- The confidence gate of line 321: reject the draft when
`sum_occur > 0 && max_occur < 3 * sum_occur`. -/
def map_gate_reject (vals : List common_ngram_map_value) : Bool :=
  let p := select_slot vals
  let s := sum_other vals p.2
  decide (0 < s) && decide (p.1 < 3 * s)

/-- Lines 172-342 of `common_ngram_map_draft`, after a key match was found
at `match_pos`: resolve the key entry, bump its hit count, then either the
key-only branch (lines 208-225) or the statistical branch (lines 227-342).
`map` here already carries the updated throttle cursor. -/
def map_draft_after_match (map : common_ngram_map) (inp : List Token)
    (key_tokens : List Token) (match_pos : Nat) :
    common_ngram_map × List Token :=
  let n := map.size_key
  let m := map.size_value
  let p := resolve_key_offset inp key_tokens n m match_pos map.keys
  let key_offset := p.1
  let keys0 := p.2
  let curr_key := keys0.getD key_offset default
  -- lines 204-206: update the number of key hits
  let key1 := { curr_key with key_num := ngram_bump curr_key.key_num }
  let keys1 := keys0.set key_offset key1
  if map.key_only then
    -- lines 208-225: key-only mode, value slot 0, pending draft left unset
    let n_draft_tokens := min m (key1.values.getD 0 default).n_accepted
    ({ map with keys := keys1,
                last_draft_created := false,
                last_draft_key_idx := key_offset,
                last_draft_value_idx := 0 },
     (List.range n_draft_tokens).map (fun i => tokAt inp (match_pos + n + i)))
  else if key1.key_num < map.min_hits then
    -- lines 227-232: not enough hits, no draft (the hit bump is kept)
    ({ map with keys := keys1 }, [])
  else
    -- lines 238-284: statistics refresh, then stat_idx := match_pos
    let vals1 := refresh_values inp key_tokens n m key1.stat_idx match_pos key1.values
    let key2 := { key1 with values := vals1, stat_idx := match_pos }
    let keys2 := keys0.set key_offset key2
    if map_gate_reject vals1 then
      -- lines 321-325: confidence gate rejects, no draft
      ({ map with keys := keys2 }, [])
    else
      -- lines 327-341: emit the draft from the winning slot
      let slot_max := (select_slot vals1).2
      let n_draft_tokens := min m (vals1.getD slot_max default).n_accepted
      ({ map with keys := keys2,
                  last_draft_created := true,
                  last_draft_key_idx := key_offset,
                  last_draft_value_idx := slot_max },
       (List.range n_draft_tokens).map (fun i => tokAt inp (match_pos + n + i)))

/-- `common_ngram_map_draft` (lines 118-342).  Returns the updated cache
(the C++ mutates `map` by reference) together with the draft tokens. -/
def common_ngram_map_draft (map : common_ngram_map) (inp : List Token)
    (sampled : Token) : common_ngram_map × List Token :=
  -- lines 121-124: reset the pending-draft reference
  let map0 := { map with last_draft_created := false,
                         last_draft_key_idx := 0,
                         last_draft_value_idx := 0 }
  let cur_len := inp.length
  let n := map.size_key
  let m := map.size_value
  if cur_len < 2 * n + m then
    (map0, [])
  else if map.idx_last_check + map.check_rate > cur_len then
    (map0, [])
  else
    -- line 138: the throttle cursor is advanced unconditionally from here on
    let map1 := { map0 with idx_last_check := cur_len }
    let key_tokens := build_pattern inp n sampled
    let match_pos := find_match_backward (key_match_at inp key_tokens n) (cur_len - n - m - 1)
    if match_pos = 0 then
      (map1, [])
    else
      map_draft_after_match map1 inp key_tokens match_pos

/-- `common_ngram_map_accept` (lines 344-362): overwrite the `n_accepted`
calibration of the value slot referenced by the pending draft; a guaranteed
no-op when no draft is pending. -/
def common_ngram_map_accept (map : common_ngram_map) (n_accepted : Nat) :
    common_ngram_map :=
  if map.last_draft_created = false then map
  else
    match map.keys.get? map.last_draft_key_idx with
    | none => map
    | some key =>
      match key.values.get? map.last_draft_value_idx with
      | none => map
      | some val =>
        let val1 := { val with n_accepted := n_accepted }
        let key1 := { key with values := key.values.set map.last_draft_value_idx val1 }
        { map with keys := map.keys.set map.last_draft_key_idx key1 }

/-- The contiguous block of `len` history indices starting at `start`. -/
def window (start len : Nat) : List Nat :=
  (List.range len).map (fun t => start + t)

/-- Every history index `common_ngram_map_draft` can read, phase by phase,
mirroring the control flow of lines 118-342.  Data-dependent early breaks
inside the comparison loops and the pruning of the copy length by
`n_accepted` (and by the confidence gate) only ever remove reads, so this
list is a superset of the indices actually read on any execution:
key construction (lines 143-145), backward key search (lines 150-162,
positions `1 .. cur_len - n - m - 1`, window of `n`), key-entry content
comparison (lines 175-187, window of `n` at every stored anchor), the
key-only copy (lines 214-216), the statistics-refresh scans (lines 238-282:
at each visited position the key window of `n`, the continuation window of
`m`, and the windows of `m` at the occupied value anchors), and the draft
copy (lines 331-333). -/
def common_ngram_map_draft_reads (map : common_ngram_map) (inp : List Token)
    (sampled : Token) : List Nat :=
  let cur_len := inp.length
  let n := map.size_key
  let m := map.size_value
  if cur_len < 2 * n + m then []
  else if map.idx_last_check + map.check_rate > cur_len then []
  else
    let key_tokens := build_pattern inp n sampled
    let key_build_reads := window (cur_len - n + 1) (n - 1)
    let search_start := cur_len - n - m - 1
    let search_reads := (List.range search_start).flatMap (fun t => window (t + 1) n)
    let match_pos := find_match_backward (key_match_at inp key_tokens n) search_start
    if match_pos = 0 then key_build_reads ++ search_reads
    else
      let lookup_reads := map.keys.flatMap (fun k => window k.key_idx n)
      let base := key_build_reads ++ search_reads ++ lookup_reads
      let p := resolve_key_offset inp key_tokens n m match_pos map.keys
      let curr_key := p.2.getD p.1 default
      if map.key_only then
        base ++ window (match_pos + n) (min m (curr_key.values.getD 0 default).n_accepted)
      else if ngram_bump curr_key.key_num < map.min_hits then
        base
      else
        let refresh_reads := (refresh_positions curr_key.stat_idx match_pos).flatMap
          (fun i => window i n ++ window (i + n) m)
        let slot_reads := curr_key.values.flatMap
          (fun v => if v.value_idx = 0 then [] else window v.value_idx m)
        base ++ refresh_reads ++ slot_reads ++ window (match_pos + n) m

/-- Well-formedness of the stored anchors relative to a history length:
every key anchor was found by a backward search that started at
`len - n - m - 1` of some earlier (prefix) history, and every occupied
value anchor is the continuation start `i + n` of a scan position
`i ≤ match_pos` of such a search.  This is exactly what a recording draft
call establishes. -/
def anchors_wf (map : common_ngram_map) (len : Nat) : Prop :=
  ∀ key ∈ map.keys,
    key.key_idx + map.size_key + map.size_value + 1 ≤ len ∧
    ∀ val ∈ key.values, val.value_idx ≠ 0 →
      val.value_idx + map.size_value + 1 ≤ len

/-- A value slot's occurrence counter is at most the saturation cap. -/
def value_capped (v : common_ngram_map_value) : Bool :=
  decide (v.value_num ≤ COMMON_NGRAM_MAX_VALUE_COUNT)

/-- A key entry's hit counter and all its occurrence counters are at most
the saturation cap. -/
def key_capped (k : common_ngram_map_key) : Bool :=
  decide (k.key_num ≤ COMMON_NGRAM_MAX_VALUE_COUNT) && k.values.all value_capped

/-- All `key_num` and `value_num` counters of the cache are at most the
saturation cap. -/
def counters_capped (map : common_ngram_map) : Bool :=
  map.keys.all key_capped

/-- One call of the cache's public interface. -/
inductive NgramOp where
  | draft (inp : List Token) (sampled : Token)
  | accept (n_accepted : Nat)

/-- Apply one interface call to the cache state. -/
def apply_op (map : common_ngram_map) : NgramOp → common_ngram_map
  | NgramOp.draft inp sampled => (common_ngram_map_draft map inp sampled).1
  | NgramOp.accept k => common_ngram_map_accept map k

/-- Apply a sequence of interface calls to the cache state. -/
def apply_ops (map : common_ngram_map) (ops : List NgramOp) : common_ngram_map :=
  ops.foldl apply_op map

/-- How often the key n-gram occurs in the history followed by the m-gram
anchored at `vidx` — the ground-truth occurrence count of one key/value
pair over the whole history. -/
def count_key_value_occurrences (inp key_tokens : List Token) (n m vidx : Nat) : Nat :=
  ((List.range inp.length).filter
    (fun i => key_match_at inp key_tokens n i && value_match_at inp m (i + n) vidx)).length

/-- A fresh statistical cache with `n = m = 1`, `check_rate = 1`,
`min_hits = 1`, statistical mode. -/
def ngram_ex_map0 : common_ngram_map :=
  { size_key := 1, size_value := 1, check_rate := 1, min_hits := 1, key_only := false,
    idx_last_check := 0, keys := [], last_draft_created := false,
    last_draft_key_idx := 0, last_draft_value_idx := 0 }

/-- History for the first example draft call. -/
def ngram_ex_inp1 : List Token := [9, 5, 1, 5, 2]

/-- The first example history, grown by two more generated tokens. -/
def ngram_ex_inp2 : List Token := [9, 5, 1, 5, 2, 5, 3]

/-- Cache state after one draft call on `ngram_ex_inp1` with sampled
token 5. -/
def ngram_ex_map1 : common_ngram_map :=
  (common_ngram_map_draft ngram_ex_map0 ngram_ex_inp1 5).1

/-- Cache state after the second draft call, on `ngram_ex_inp2` with
sampled token 5. -/
def ngram_ex_map2 : common_ngram_map :=
  (common_ngram_map_draft ngram_ex_map1 ngram_ex_inp2 5).1

/-- A simple-drafter state with `check_rate = 1`, `n = 2`, `m = 1`. -/
def simple_ex_state0 : common_ngram_simple_state :=
  { config := { check_rate := 1, size_ngram := 2, size_mgram := 1 },
    idx_last_check := 0 }

/-- A history in which the pattern `[5, 9]` (for sampled token 9) occurs
nowhere. -/
def simple_ex_tokens : List Token := [1, 2, 3, 4, 5]

/-- A simple-drafter state with `check_rate = 1`, `n = 2`, `m = 3`. -/
def simple_ex2_state0 : common_ngram_simple_state :=
  { config := { check_rate := 1, size_ngram := 2, size_mgram := 3 },
    idx_last_check := 0 }

/-- A history in which the pattern `[1, 2]` (for sampled token 2) occurs at
position 1. -/
def simple_ex2_tokens : List Token := [3, 1, 2, 7, 8, 3, 1]

/-- A concrete match predicate holding exactly at positions 2 and 4. -/
def match_ex : Nat → Bool := fun j => decide (j = 2) || decide (j = 4)

/-!
Helper lemmas shared by the claim theorems.
-/

/-- Indices in a window lie between its start and its exclusive end. -/
theorem window_bounds {i a b : Nat} (h : i ∈ window a b) : a ≤ i ∧ i < a + b := by
  simp only [window, List.mem_map, List.mem_range] at h
  obtain ⟨t, ht, rfl⟩ := h
  omega

/-- The backward search never returns a position above its start. -/
theorem find_match_backward_le (f : Nat → Bool) : ∀ s, find_match_backward f s ≤ s := by
  intro s
  induction s with
  | zero => simp [find_match_backward]
  | succ j ih =>
    simp only [find_match_backward]
    split
    · exact Nat.le_refl _
    · exact Nat.le_trans ih (Nat.le_succ j)

/-- Characterisation of the backward search: a nonzero result is a matching
position, and every position strictly between the result and the start
(inclusive) fails to match. -/
theorem find_match_backward_spec (f : Nat → Bool) :
    ∀ s, (find_match_backward f s ≠ 0 →
            1 ≤ find_match_backward f s ∧ f (find_match_backward f s) = true) ∧
         (∀ q, find_match_backward f s < q → q ≤ s → f q = false) := by
  intro s
  induction s with
  | zero =>
    refine ⟨fun h => absurd rfl h, fun q hq hq0 => absurd (Nat.lt_of_lt_of_le hq hq0) (by simp)⟩
  | succ j ih =>
    simp only [find_match_backward]
    split
    · next hmatch =>
      exact ⟨fun _ => ⟨Nat.succ_le_succ (Nat.zero_le j), hmatch⟩,
             fun q hq hq1 => absurd (Nat.lt_of_lt_of_le hq hq1) (Nat.lt_irrefl _)⟩
    · next hfail =>
      refine ⟨ih.1, fun q hq hq1 => ?_⟩
      rcases Nat.lt_or_ge q (j + 1) with hlt | hge
      · exact ih.2 q hq (Nat.lt_succ_iff.mp hlt)
      · have : q = j + 1 := Nat.le_antisymm hq1 hge
        subst this
        simpa using hfail

/-- Membership in the refresh position range. -/
theorem mem_refresh_positions {s p i : Nat} :
    i ∈ refresh_positions s p ↔ s ≤ i ∧ i ≤ p := by
  simp only [refresh_positions, List.mem_map, List.mem_range]
  constructor
  · rintro ⟨t, ht, rfl⟩
    omega
  · rintro ⟨h1, h2⟩
    exact ⟨i - s, by omega, by omega⟩

/-- C6: both drafting components search backward through
`find_match_backward` (the drafter from `len(history) - key_len - 1`, the
cache from `len(history) - n - m - 1`, each down to but excluding
position 0) and use the first match found: a nonzero result is a matching
position not above the start, every candidate position above the result
fails to match, and whenever two distinct eligible positions both match,
the search result is at least the later one (so the later occurrence is the
one used); position 0 is never returned as a match — 0 is only the
"no match" sentinel, in which case no eligible position matches at all. -/
theorem claim_C6_backward_scan_most_recent (f : Nat → Bool) (start : Nat) :
    (find_match_backward f start = 0 ∨
      (1 ≤ find_match_backward f start ∧ find_match_backward f start ≤ start ∧
        f (find_match_backward f start) = true)) ∧
    (∀ q, find_match_backward f start < q → q ≤ start → f q = false) ∧
    (∀ p q, 1 ≤ p → p < q → q ≤ start → f p = true → f q = true →
      q ≤ find_match_backward f start ∧ find_match_backward f start ≠ 0) := by
  have hspec := find_match_backward_spec f start
  refine ⟨?_, hspec.2, ?_⟩
  · rcases Nat.eq_zero_or_pos (find_match_backward f start) with h0 | hpos
    · exact Or.inl h0
    · have hne : find_match_backward f start ≠ 0 := Nat.pos_iff_ne_zero.mp hpos
      exact Or.inr ⟨(hspec.1 hne).1, find_match_backward_le f start, (hspec.1 hne).2⟩
  · intro p q hp hpq hqs hfp hfq
    have hq : q ≤ find_match_backward f start := by
      by_contra hcon
      have := hspec.2 q (Nat.lt_of_not_le hcon) hqs
      rw [hfq] at this
      exact absurd this (by simp)
    exact ⟨hq, by omega⟩

/-- Witness for C6 at the concrete predicate `match_ex` (matches exactly at
positions 2 and 4) with start position 5: the search result is at least the
later match 4 and is not the sentinel. -/
theorem claim_C6_backward_scan_most_recent_witness :
    4 ≤ find_match_backward match_ex 5 ∧ find_match_backward match_ex 5 ≠ 0 :=
  (claim_C6_backward_scan_most_recent match_ex 5).2.2 2 4 (by decide) (by decide)
    (by decide) (by decide) (by decide)

/-- `map_draft_after_match` never touches the throttle cursor: every branch
after the key match only rewrites `keys` and the pending-draft fields. -/
theorem map_draft_after_match_idx_last_check (map : common_ngram_map)
    (inp key_tokens : List Token) (match_pos : Nat) :
    (map_draft_after_match map inp key_tokens match_pos).1.idx_last_check =
      map.idx_last_check := by
  simp only [map_draft_after_match]
  repeat' split
  all_goals rfl

/-- Counterexample to C3: a pattern-replay drafter call on which the
throttle and the length precondition pass, the backward scan finds no
match (the pattern `[5, 9]` occurs nowhere in `[1,2,3,4,5]`), the draft is
empty — and yet `idx_last_check` is updated from 0 to `len(history) = 5`,
contradicting the claim that it is not updated in this case. -/
theorem claim_C3_counterexample :
    simple_ex_state0.idx_last_check + simple_ex_state0.config.check_rate ≤
      simple_ex_tokens.length ∧
    simple_ex_state0.config.size_ngram + simple_ex_state0.config.size_mgram + 1 <
      simple_ex_tokens.length ∧
    find_match_backward
      (pattern_match_at simple_ex_tokens (build_pattern simple_ex_tokens 2 9))
      (simple_ex_tokens.length - 2 - 1) = 0 ∧
    simple_ex_state0.idx_last_check = 0 ∧
    (common_ngram_simple_draft simple_ex_state0 simple_ex_tokens 9).2 = [] ∧
    (common_ngram_simple_draft simple_ex_state0 simple_ex_tokens 9).1.idx_last_check = 5 := by
  decide

/-- C3 as amended: the Statistical Cache sets `idx_last_check` to
`len(history)` whenever the history-length guard and the throttle pass,
even if no key match is ultimately found — and the Pattern-Replay Drafter
behaves the same way, updating `idx_last_check` to `len(history)` on every
call whose throttle and length precondition pass, even when the backward
scan finds no match (both set the cursor before searching). -/
theorem claim_C3_amended_throttle_cursor (map : common_ngram_map)
    (inp : List Token) (sampled : Token)
    (state : common_ngram_simple_state) (tokens : List Token) (sampled2 : Token)
    (hg : 2 * map.size_key + map.size_value ≤ inp.length)
    (ht : map.idx_last_check + map.check_rate ≤ inp.length)
    (hts : state.idx_last_check + state.config.check_rate ≤ tokens.length)
    (hgs : state.config.size_ngram + state.config.size_mgram + 1 < tokens.length) :
    (common_ngram_map_draft map inp sampled).1.idx_last_check = inp.length ∧
    (common_ngram_simple_draft state tokens sampled2).1.idx_last_check = tokens.length := by
  constructor
  · simp only [common_ngram_map_draft]
    rw [if_neg (by omega), if_neg (by omega)]
    split
    · rfl
    · rw [map_draft_after_match_idx_last_check]
  · simp only [common_ngram_simple_draft]
    rw [if_neg (by omega), if_neg (by omega)]
    split
    · rfl
    · split <;> rfl

/-- Witness for the amended C3 at concrete inputs: a statistical-cache call
on history of length 5 and a drafter call on history of length 7, both with
their guards passing, end with the cursor at the history length. -/
theorem claim_C3_amended_throttle_cursor_witness :
    (common_ngram_map_draft ngram_ex_map0 ngram_ex_inp1 5).1.idx_last_check =
      ngram_ex_inp1.length ∧
    (common_ngram_simple_draft simple_ex2_state0 simple_ex2_tokens 2).1.idx_last_check =
      simple_ex2_tokens.length :=
  claim_C3_amended_throttle_cursor ngram_ex_map0 ngram_ex_inp1 5
    simple_ex2_state0 simple_ex2_tokens 2
    (by decide) (by decide) (by decide) (by decide)

/-- C5: when the Pattern-Replay Drafter's throttle and length precondition
pass and the backward scan finds a match at `mp`, the draft is computed
from `available = min(continuation_len, len(history) - (mp + key_len))`:
empty if `available < key_len`, and otherwise exactly the `available`
consecutive history tokens starting at `mp + key_len`. -/
theorem claim_C5_simple_draft_output (state : common_ngram_simple_state)
    (tokens : List Token) (sampled : Token) (mp : Nat)
    (ht : state.idx_last_check + state.config.check_rate ≤ tokens.length)
    (hg : state.config.size_ngram + state.config.size_mgram + 1 < tokens.length)
    (hmp : mp = find_match_backward
        (pattern_match_at tokens (build_pattern tokens state.config.size_ngram sampled))
        (tokens.length - state.config.size_ngram - 1))
    (hm : mp ≠ 0) :
    (common_ngram_simple_draft state tokens sampled).2 =
      if min state.config.size_mgram (tokens.length - (mp + state.config.size_ngram)) <
          state.config.size_ngram then
        []
      else
        (List.range (min state.config.size_mgram
            (tokens.length - (mp + state.config.size_ngram)))).map
          (fun j => tokAt tokens (mp + state.config.size_ngram + j)) := by
  subst hmp
  simp only [common_ngram_simple_draft]
  rw [if_neg (by omega), if_neg (by omega), if_neg hm]
  split_ifs with h
  · rfl
  · rfl

/-- Witness for C5 at a concrete drafter call: history
`[3,1,2,7,8,3,1]`, sampled token 2, `n = 2`, `m = 3`; the match is at
position 1 and the draft is the three tokens `[7,8,3]` that followed it. -/
theorem claim_C5_simple_draft_output_witness :
    (common_ngram_simple_draft simple_ex2_state0 simple_ex2_tokens 2).2 =
      if min simple_ex2_state0.config.size_mgram
          (simple_ex2_tokens.length - (1 + simple_ex2_state0.config.size_ngram)) <
          simple_ex2_state0.config.size_ngram then
        []
      else
        (List.range (min simple_ex2_state0.config.size_mgram
            (simple_ex2_tokens.length - (1 + simple_ex2_state0.config.size_ngram)))).map
          (fun j => tokAt simple_ex2_tokens (1 + simple_ex2_state0.config.size_ngram + j)) :=
  claim_C5_simple_draft_output simple_ex2_state0 simple_ex2_tokens 2 1
    (by decide) (by decide) (by decide) (by decide)

/-- C8: a cache draft call failing the history-length guard
(`len(history) < 2n + m`) or the throttle
(`len(history) - idx_last_check < check_rate`) returns the empty draft and
leaves the whole state unchanged except for clearing the pending-draft
reference — in particular the throttle cursor, all key entries, their
`stat_idx`, `key_num` and value slots are untouched. -/
theorem claim_C8_guard_throttle_frame (map : common_ngram_map) (inp : List Token)
    (sampled : Token)
    (h : inp.length < 2 * map.size_key + map.size_value ∨
         inp.length < map.idx_last_check + map.check_rate) :
    common_ngram_map_draft map inp sampled =
      ({ map with last_draft_created := false, last_draft_key_idx := 0,
                  last_draft_value_idx := 0 }, []) := by
  rcases h with h | h
  · simp only [common_ngram_map_draft]
    rw [if_pos h]
  · simp only [common_ngram_map_draft]
    by_cases hg : inp.length < 2 * map.size_key + map.size_value
    · rw [if_pos hg]
    · rw [if_neg hg, if_pos (by omega)]

/-- Witness for C8: a draft call on the one-key cache `ngram_ex_map1` with
a too-short history returns empty and only clears the pending draft. -/
theorem claim_C8_guard_throttle_frame_witness :
    common_ngram_map_draft ngram_ex_map1 [(1 : Int)] 5 =
      ({ ngram_ex_map1 with last_draft_created := false, last_draft_key_idx := 0,
                            last_draft_value_idx := 0 }, []) :=
  claim_C8_guard_throttle_frame ngram_ex_map1 [(1 : Int)] 5 (Or.inl (by decide))

/-- C7: the accept feedback is a total function that is the identity on the
cache whenever no draft is pending (`last_draft_created = false` — which
also holds after every key-only-mode draft call, whose branch deliberately
leaves the pending reference unset), and otherwise overwrites exactly the
`n_accepted` field of the value slot referenced by the pending draft,
leaving every other field of the cache unchanged. -/
theorem claim_C7_accept_feedback :
    (∀ (map : common_ngram_map) (k : Nat),
        map.last_draft_created = false → common_ngram_map_accept map k = map) ∧
    (∀ (map : common_ngram_map) (k : Nat) (key : common_ngram_map_key)
        (val : common_ngram_map_value),
        map.last_draft_created = true →
        map.keys.get? map.last_draft_key_idx = some key →
        key.values.get? map.last_draft_value_idx = some val →
        common_ngram_map_accept map k =
          { map with keys := map.keys.set map.last_draft_key_idx { key with values := key.values.set map.last_draft_value_idx { val with n_accepted := k } } }) ∧
    (∀ (map : common_ngram_map) (inp : List Token) (sampled : Token),
        map.key_only = true →
        (common_ngram_map_draft map inp sampled).1.last_draft_created = false) := by
  refine ⟨?_, ?_, ?_⟩
  · intro map k h
    simp [common_ngram_map_accept, h]
  · intro map k key val h hk hv
    simp [common_ngram_map_accept, h, ← List.get?_eq_getElem?, hk, hv]
  · intro map inp sampled h
    simp only [common_ngram_map_draft]
    split_ifs with h1 h2 h3
    · rfl
    · rfl
    · rfl
    · simp [map_draft_after_match, h]

/-- Witness for C7: accepting feedback on a fresh cache with no pending
draft leaves the cache unchanged. -/
theorem claim_C7_accept_feedback_witness :
    common_ngram_map_accept ngram_ex_map0 3 = ngram_ex_map0 :=
  claim_C7_accept_feedback.1 ngram_ex_map0 3 rfl

/-- C4: in statistical mode the winning slot `slot_max` is the slot of
maximum `value_num` with ties broken toward the lowest index (the selection
loop uses a strict-greater comparison), and the confidence gate rejects the
draft exactly when `sum_other > 0` and `value_num[slot_max] < 3 *
sum_other`; concretely, two occupied slots with counts (9, 3) pass, counts
(8, 3) reject, and a single occupied slot passes regardless of its count. -/
theorem claim_C4_confidence_gate :
    (∀ vals : List common_ngram_map_value,
      map_gate_reject vals = true ↔
        0 < sum_other vals (select_slot vals).2 ∧
        (select_slot vals).1 < 3 * sum_other vals (select_slot vals).2) ∧
    (∀ v0 v1 v2 v3 : common_ngram_map_value,
      (select_slot [v0, v1, v2, v3]).2 < 4 ∧
      ([v0, v1, v2, v3].getD (select_slot [v0, v1, v2, v3]).2 default).value_num =
        (select_slot [v0, v1, v2, v3]).1 ∧
      (∀ w, w < 4 →
        ([v0, v1, v2, v3].getD w default).value_num ≤ (select_slot [v0, v1, v2, v3]).1) ∧
      (∀ w, w < (select_slot [v0, v1, v2, v3]).2 →
        ([v0, v1, v2, v3].getD w default).value_num < (select_slot [v0, v1, v2, v3]).1)) ∧
    map_gate_reject [⟨1, 9, 0⟩, ⟨3, 3, 0⟩, ⟨0, 0, 0⟩, ⟨0, 0, 0⟩] = false ∧
    map_gate_reject [⟨1, 8, 0⟩, ⟨3, 3, 0⟩, ⟨0, 0, 0⟩, ⟨0, 0, 0⟩] = true ∧
    (∀ k : Nat, map_gate_reject [⟨1, k, 0⟩, ⟨0, 0, 0⟩, ⟨0, 0, 0⟩, ⟨0, 0, 0⟩] = false) := by
  refine ⟨?_, ?_, by decide, by decide, ?_⟩
  · intro vals
    simp [map_gate_reject]
  · intro v0 v1 v2 v3
    obtain ⟨i0, c0, a0⟩ := v0
    obtain ⟨i1, c1, a1⟩ := v1
    obtain ⟨i2, c2, a2⟩ := v2
    obtain ⟨i3, c3, a3⟩ := v3
    simp only [select_slot, select_slot_go]
    split_ifs <;>
      refine ⟨by omega, by simp <;> omega, fun w hw => ?_, fun w hw => ?_⟩ <;>
      interval_cases w <;> simp <;> omega
  · intro k
    rcases Nat.eq_zero_or_pos k with hk | hk
    · subst hk
      decide
    · simp [map_gate_reject, select_slot, select_slot_go, sum_other, sum_other_go, hk]

/-- Witness for C4 at concrete slot contents: counts (9, 3) pass the gate,
the selection on those slots lands on a slot index below 4, and slot 1's
count is bounded by the winner's. -/
theorem claim_C4_confidence_gate_witness :
    map_gate_reject [⟨1, 9, 0⟩, ⟨3, 3, 0⟩, ⟨0, 0, 0⟩, ⟨0, 0, 0⟩] = false ∧
    (select_slot [⟨1, 9, 0⟩, ⟨3, 3, 0⟩, ⟨0, 0, 0⟩, ⟨0, 0, 0⟩]).2 < 4 ∧
    ([(⟨1, 9, 0⟩ : common_ngram_map_value), ⟨3, 3, 0⟩, ⟨0, 0, 0⟩, ⟨0, 0, 0⟩].getD 1
        default).value_num ≤ (select_slot [⟨1, 9, 0⟩, ⟨3, 3, 0⟩, ⟨0, 0, 0⟩, ⟨0, 0, 0⟩]).1 ∧
    map_gate_reject [⟨1, 7, 0⟩, ⟨0, 0, 0⟩, ⟨0, 0, 0⟩, ⟨0, 0, 0⟩] = false :=
  ⟨claim_C4_confidence_gate.2.2.1,
   (claim_C4_confidence_gate.2.1 ⟨1, 9, 0⟩ ⟨3, 3, 0⟩ ⟨0, 0, 0⟩ ⟨0, 0, 0⟩).1,
   (claim_C4_confidence_gate.2.1 ⟨1, 9, 0⟩ ⟨3, 3, 0⟩ ⟨0, 0, 0⟩ ⟨0, 0, 0⟩).2.2.1 1 (by decide),
   claim_C4_confidence_gate.2.2.2.2 7⟩

/-- Skipping an occupied, non-matching slot in the value-slot loop. -/
theorem find_value_slot_cons_skip (inp : List Token) (m ibvk : Nat)
    (val : common_ngram_map_value) (rest : List common_ngram_map_value)
    (h0 : val.value_idx ≠ 0)
    (hm : value_match_at inp m ibvk val.value_idx = false) :
    find_value_slot inp m ibvk (val :: rest) =
      (find_value_slot inp m ibvk rest).map (fun p => (p.1 + 1, p.2)) := by
  simp [find_value_slot, h0, hm]

/-- Bumping a slot at a successor index leaves the head slot alone. -/
theorem bump_value_cons (val : common_ngram_map_value)
    (l : List common_ngram_map_value) (v : Nat) :
    bump_value (val :: l) (v + 1) = val :: bump_value l v := by
  simp only [bump_value, List.get?_cons_succ]
  cases l.get? v <;> simp

/-- Processing an occurrence leaves an occupied, non-matching head slot
alone. -/
theorem process_occurrence_cons (inp : List Token) (m ibvk : Nat)
    (val : common_ngram_map_value) (rest : List common_ngram_map_value)
    (h0 : val.value_idx ≠ 0)
    (hm : value_match_at inp m ibvk val.value_idx = false) :
    process_occurrence inp m ibvk (val :: rest) =
      val :: process_occurrence inp m ibvk rest := by
  simp only [process_occurrence, find_value_slot_cons_skip inp m ibvk val rest h0 hm]
  cases hf : find_value_slot inp m ibvk rest with
  | none => simp
  | some p =>
    obtain ⟨v, isNew⟩ := p
    cases isNew <;> simp [List.set_cons_succ, bump_value_cons]

/-- Counterexample to C1: one statistical-mode draft call on the fresh
cache `ngram_ex_map0` (min_hits = 1, so the refresh runs) finds the key at
position 1 and, at that establishing occurrence, claims the first free
value slot for the continuation anchored at history index 2 — but after
the refresh step has processed that occurrence the slot's
`value_num` is 1, not 0: the code increments the count of the slot it just
claimed (lines 277-281 run for a fresh claim too), so the occurrence that
establishes the slot's identity IS tallied. -/
theorem claim_C1_counterexample :
    ngram_ex_map0.keys = [] ∧
    ngram_ex_map0.min_hits = 1 ∧ ngram_ex_map0.key_only = false ∧
    ((ngram_ex_map1.keys.getD 0 default).values.getD 0 default).value_idx = 2 ∧
    ((ngram_ex_map1.keys.getD 0 default).values.getD 0 default).value_num = 1 := by
  decide

/-- C1 as amended: when a refresh occurrence's continuation m-gram matches
no occupied value slot and a free slot exists, the value-slot walk claims
the first free slot (`find_value_slot` reports it as a fresh claim), sets
its anchor to the occurrence's continuation start and its count to 0 — and
then the shared increment of lines 277-281 tallies the establishing
occurrence itself, so after the refresh step has processed it the claimed
slot holds anchor `ibvk`, `value_num = 1` and `n_accepted = m`. -/
theorem claim_C1_amended_establishing_occurrence_tallied
    (inp : List Token) (m ibvk : Nat) (vals : List common_ngram_map_value)
    (hfree : ∃ val ∈ vals, val.value_idx = 0)
    (hnomatch : ∀ val ∈ vals, val.value_idx ≠ 0 →
      value_match_at inp m ibvk val.value_idx = false) :
    find_value_slot inp m ibvk vals =
      some (vals.findIdx (fun val => val.value_idx == 0), true) ∧
    (process_occurrence inp m ibvk vals).get?
        (vals.findIdx (fun val => val.value_idx == 0)) =
      some ⟨ibvk, 1, m⟩ := by
  revert hfree hnomatch
  induction vals with
  | nil =>
    intro hfree hnomatch
    simp at hfree
  | cons val rest ih =>
    intro hfree hnomatch
    by_cases h0 : val.value_idx = 0
    · constructor
      · simp [find_value_slot, h0, List.findIdx_cons]
      · simp [List.findIdx_cons, h0, process_occurrence, find_value_slot, bump_value,
              ngram_bump, COMMON_NGRAM_MAX_VALUE_COUNT]
    · have hm : value_match_at inp m ibvk val.value_idx = false :=
        hnomatch val (List.mem_cons_self val rest) h0
      have hfree2 : ∃ v ∈ rest, v.value_idx = 0 := by
        rcases hfree with ⟨w, hw, hw0⟩
        rcases List.mem_cons.mp hw with rfl | hw2
        · exact absurd hw0 h0
        · exact ⟨w, hw2, hw0⟩
      have hnomatch2 : ∀ v ∈ rest, v.value_idx ≠ 0 →
          value_match_at inp m ibvk v.value_idx = false :=
        fun v hv => hnomatch v (List.mem_cons_of_mem val hv)
      obtain ⟨ih1, ih2⟩ := ih hfree2 hnomatch2
      have hb : (val.value_idx == 0) = false := by simp [h0]
      constructor
      · rw [find_value_slot_cons_skip inp m ibvk val rest h0 hm, ih1]
        simp [List.findIdx_cons, hb]
      · rw [process_occurrence_cons inp m ibvk val rest h0 hm]
        simp only [List.findIdx_cons, hb, cond_false]
        rw [List.get?_cons_succ]
        exact ih2

/-- Witness for the amended C1 at concrete slots: the first slot is
occupied (anchor 5) and does not match, the second is free; the walk claims
slot 1 and after the occurrence is processed it holds anchor 1 with
count 1. -/
theorem claim_C1_amended_establishing_occurrence_tallied_witness :
    find_value_slot [1, 2, 3] 1 1 [⟨5, 2, 1⟩, ⟨0, 0, 1⟩] =
      some ([(⟨5, 2, 1⟩ : common_ngram_map_value), ⟨0, 0, 1⟩].findIdx
        (fun val => val.value_idx == 0), true) ∧
    (process_occurrence [1, 2, 3] 1 1 [⟨5, 2, 1⟩, ⟨0, 0, 1⟩]).get?
        ([(⟨5, 2, 1⟩ : common_ngram_map_value), ⟨0, 0, 1⟩].findIdx
          (fun val => val.value_idx == 0)) =
      some ⟨1, 1, 1⟩ :=
  claim_C1_amended_establishing_occurrence_tallied [1, 2, 3] 1 1
    [⟨5, 2, 1⟩, ⟨0, 0, 1⟩] (by decide) (by decide)

/-- Counterexample to C2: after the first draft call the key entry has
`stat_idx = 1` (its match position), and the second call's refresh scans
from `stat_idx = 1` through the new match position 3 inclusive — so
position 1 is scanned by both refreshes.  Its occurrence is tallied twice:
after the two calls slot 0's `value_num` is 2, although the key `[5]`
followed by the continuation anchored at index 2 occurs exactly once in
the whole history.  Some history position was therefore folded into the
same entry's occurrence statistics by two different refreshes. -/
theorem claim_C2_counterexample :
    (ngram_ex_map1.keys.getD 0 default).stat_idx = 1 ∧
    ((ngram_ex_map1.keys.getD 0 default).values.getD 0 default).value_num = 1 ∧
    (ngram_ex_map2.keys.getD 0 default).stat_idx = 3 ∧
    ((ngram_ex_map2.keys.getD 0 default).values.getD 0 default).value_num = 2 ∧
    count_key_value_occurrences ngram_ex_inp2 [5] 1 1 2 = 1 := by
  decide

/-- C2 as amended: each statistics refresh scans exactly the history
positions from the entry's `scan_progress` (`stat_idx`) through the
current `match_pos` inclusive and then sets `scan_progress = match_pos`;
consecutive scan ranges are therefore not disjoint — they share exactly
the boundary position (the previous `match_pos`), which can be folded into
the entry's statistics by two refreshes, while every position strictly
inside a range is scanned by that refresh alone. -/
theorem claim_C2_amended_refresh_overlap (s1 p1 p2 : Nat)
    (h1 : s1 ≤ p1) (h2 : p1 ≤ p2) :
    (∀ i, i ∈ refresh_positions s1 p1 ↔ s1 ≤ i ∧ i ≤ p1) ∧
    p1 ∈ refresh_positions s1 p1 ∧
    p1 ∈ refresh_positions p1 p2 ∧
    (∀ i, i ∈ refresh_positions s1 p1 → i ∈ refresh_positions p1 p2 → i = p1) := by
  refine ⟨fun i => mem_refresh_positions, ?_, ?_, ?_⟩
  · exact mem_refresh_positions.mpr ⟨h1, Nat.le_refl p1⟩
  · exact mem_refresh_positions.mpr ⟨Nat.le_refl p1, h2⟩
  · intro i hi1 hi2
    have a1 := mem_refresh_positions.mp hi1
    have a2 := mem_refresh_positions.mp hi2
    omega

/-- Witness for the amended C2 at the ranges of the two example calls
(first refresh scans 0..1, second scans 1..3): position 1 lies in both
ranges, and 0 does not lie in the second. -/
theorem claim_C2_amended_refresh_overlap_witness :
    1 ∈ refresh_positions 0 1 ∧ 1 ∈ refresh_positions 1 3 :=
  ⟨(claim_C2_amended_refresh_overlap 0 1 3 (by decide) (by decide)).2.1,
   (claim_C2_amended_refresh_overlap 0 1 3 (by decide) (by decide)).2.2.1⟩

/-- Transport a `List.all` fact through `getD`. -/
theorem list_all_getD {α : Type} (l : List α) (p : α → Bool) (n : Nat) (z : α)
    (h : l.all p = true) (hz : p z = true) : p (l.getD n z) = true := by
  rw [List.getD_eq_getElem?_getD]
  cases hg : l[n]? with
  | none => simpa using hz
  | some a =>
    rw [← List.get?_eq_getElem?] at hg
    simpa using List.all_eq_true.mp h a (List.get?_mem hg)

/-- `List.all` is preserved by `List.set` with a satisfying element. -/
theorem list_all_set {α : Type} (l : List α) (p : α → Bool) (i : Nat) (b : α)
    (h : l.all p = true) (hb : p b = true) : (l.set i b).all p = true := by
  rw [List.all_eq_true] at h ⊢
  intro x hx
  rcases List.mem_or_eq_of_mem_set hx with hx | rfl
  · exact h x hx
  · exact hb

/-- The saturating increment never exceeds the cap. -/
theorem ngram_bump_le (c : Nat) : ngram_bump c ≤ COMMON_NGRAM_MAX_VALUE_COUNT :=
  Nat.min_le_right _ _

/-- `bump_value` keeps every occurrence counter at or below the cap. -/
theorem bump_value_all_capped (vals : List common_ngram_map_value) (v : Nat)
    (h : vals.all value_capped = true) : (bump_value vals v).all value_capped = true := by
  unfold bump_value
  cases hg : vals.get? v with
  | none => exact h
  | some val =>
    refine list_all_set vals value_capped v _ h ?_
    simp [value_capped, ngram_bump_le]

/-- `process_occurrence` keeps every occurrence counter at or below the
cap. -/
theorem process_occurrence_all_capped (inp : List Token) (m ibvk : Nat)
    (vals : List common_ngram_map_value) (h : vals.all value_capped = true) :
    (process_occurrence inp m ibvk vals).all value_capped = true := by
  unfold process_occurrence
  cases hf : find_value_slot inp m ibvk vals with
  | none => exact h
  | some p =>
    obtain ⟨v, isNew⟩ := p
    cases isNew
    · simpa using bump_value_all_capped vals v h
    · simp only [if_true]
      refine bump_value_all_capped _ v ?_
      refine list_all_set vals value_capped v _ h ?_
      simp [value_capped]

/-- The statistics refresh keeps every occurrence counter at or below the
cap. -/
theorem refresh_values_all_capped (inp kt : List Token) (n m s p : Nat)
    (vals : List common_ngram_map_value) (h : vals.all value_capped = true) :
    (refresh_values inp kt n m s p vals).all value_capped = true := by
  unfold refresh_values
  generalize refresh_positions s p = l
  induction l generalizing vals with
  | nil => exact h
  | cons i rest ih =>
    simp only [List.foldl_cons]
    apply ih
    by_cases hk : key_match_at inp kt n i = true
    · simp only [hk, if_true]
      exact process_occurrence_all_capped inp m (i + n) vals h
    · simpa [hk] using h

/-- Key resolution (with a possible fresh entry) keeps all counters at or
below the cap. -/
theorem resolve_key_offset_all_capped (inp kt : List Token) (n m mp : Nat)
    (keys : List common_ngram_map_key) (h : keys.all key_capped = true) :
    (resolve_key_offset inp kt n m mp keys).2.all key_capped = true := by
  unfold resolve_key_offset
  cases find_key_offset inp kt n keys with
  | some i => exact h
  | none =>
    rw [List.all_append]
    simp [h, new_ngram_map_key, key_capped, value_capped, List.all_eq_true,
          List.mem_replicate]

/-- The post-match phase of the cache draft keeps all counters at or below
the cap. -/
theorem map_draft_after_match_counters (map : common_ngram_map)
    (inp kt : List Token) (mp : Nat) (h : counters_capped map = true) :
    counters_capped (map_draft_after_match map inp kt mp).1 = true := by
  have hkeys0 : (resolve_key_offset inp kt map.size_key map.size_value mp
      map.keys).2.all key_capped = true :=
    resolve_key_offset_all_capped inp kt map.size_key map.size_value mp map.keys h
  have hdef : key_capped (default : common_ngram_map_key) = true := by
    simp [key_capped, value_capped, default]
  have hcurr : key_capped ((resolve_key_offset inp kt map.size_key map.size_value mp
      map.keys).2.getD (resolve_key_offset inp kt map.size_key map.size_value mp
      map.keys).1 default) = true :=
    list_all_getD _ key_capped _ default hkeys0 hdef
  rw [key_capped, Bool.and_eq_true] at hcurr
  simp only [map_draft_after_match, counters_capped]
  split_ifs with h1 h2 h3
  · refine list_all_set _ _ _ _ hkeys0 ?_
    simp only [key_capped, Bool.and_eq_true]
    exact ⟨by simp [ngram_bump_le], hcurr.2⟩
  · refine list_all_set _ _ _ _ hkeys0 ?_
    simp only [key_capped, Bool.and_eq_true]
    exact ⟨by simp [ngram_bump_le], hcurr.2⟩
  · refine list_all_set _ _ _ _ hkeys0 ?_
    simp only [key_capped, Bool.and_eq_true]
    exact ⟨by simp [ngram_bump_le], refresh_values_all_capped _ _ _ _ _ _ _ hcurr.2⟩
  · refine list_all_set _ _ _ _ hkeys0 ?_
    simp only [key_capped, Bool.and_eq_true]
    exact ⟨by simp [ngram_bump_le], refresh_values_all_capped _ _ _ _ _ _ _ hcurr.2⟩

/-- A whole cache draft call keeps all counters at or below the cap. -/
theorem common_ngram_map_draft_counters (map : common_ngram_map)
    (inp : List Token) (sampled : Token) (h : counters_capped map = true) :
    counters_capped (common_ngram_map_draft map inp sampled).1 = true := by
  simp only [common_ngram_map_draft]
  split_ifs with h1 h2 h3
  · exact h
  · exact h
  · exact h
  · exact map_draft_after_match_counters _ inp _ _ h

/-- An accept call keeps all counters at or below the cap (it only rewrites
an `n_accepted` calibration field). -/
theorem common_ngram_map_accept_counters (map : common_ngram_map) (k : Nat)
    (h : counters_capped map = true) :
    counters_capped (common_ngram_map_accept map k) = true := by
  unfold common_ngram_map_accept
  split_ifs with h1
  · exact h
  · cases hk : map.keys.get? map.last_draft_key_idx with
    | none => exact h
    | some key =>
      dsimp only
      cases hv : key.values.get? map.last_draft_value_idx with
      | none => exact h
      | some val =>
        dsimp only
        have hkey : key_capped key = true :=
          List.all_eq_true.mp h key (List.get?_mem hk)
        rw [key_capped, Bool.and_eq_true] at hkey
        have hval : value_capped val = true :=
          List.all_eq_true.mp hkey.2 val (List.get?_mem hv)
        simp only [counters_capped]
        refine list_all_set _ _ _ _ h ?_
        simp only [key_capped, Bool.and_eq_true]
        refine ⟨hkey.1, ?_⟩
        refine list_all_set _ _ _ _ hkey.2 ?_
        simpa [value_capped] using hval

/-- C9: every counter of the cache — each key entry's `key_num` and each
value slot's `value_num` — saturates at the fixed cap 16380: starting from
any state whose counters are all at most the cap, after any sequence of
draft and accept calls every counter is still at most the cap, and the
saturating increment applied at the cap leaves the counter exactly at the
cap (it never overflows or wraps). -/
theorem claim_C9_counter_saturation (map : common_ngram_map) (ops : List NgramOp)
    (h : counters_capped map = true) :
    counters_capped (apply_ops map ops) = true ∧
    ngram_bump COMMON_NGRAM_MAX_VALUE_COUNT = COMMON_NGRAM_MAX_VALUE_COUNT := by
  refine ⟨?_, by decide⟩
  induction ops generalizing map with
  | nil => exact h
  | cons op rest ih =>
    simp only [apply_ops, List.foldl_cons]
    cases op with
    | draft inp sampled =>
      exact ih _ (common_ngram_map_draft_counters map inp sampled h)
    | accept k =>
      exact ih _ (common_ngram_map_accept_counters map k h)

/-- Witness for C9: starting from the fresh example cache and running the
two example draft calls followed by an accept, all counters remain at or
below the cap, and a counter standing exactly at the cap stays there when
bumped. -/
theorem claim_C9_counter_saturation_witness :
    counters_capped (apply_ops ngram_ex_map0
      [NgramOp.draft ngram_ex_inp1 5, NgramOp.accept 0,
       NgramOp.draft ngram_ex_inp2 5]) = true ∧
    ngram_bump COMMON_NGRAM_MAX_VALUE_COUNT = COMMON_NGRAM_MAX_VALUE_COUNT :=
  claim_C9_counter_saturation ngram_ex_map0
    [NgramOp.draft ngram_ex_inp1 5, NgramOp.accept 0,
     NgramOp.draft ngram_ex_inp2 5] (by decide)

/-- A found key offset indexes into the key list. -/
theorem find_key_offset_lt (inp kt : List Token) (n : Nat) :
    ∀ (keys : List common_ngram_map_key) (i : Nat),
      find_key_offset inp kt n keys = some i → i < keys.length := by
  intro keys
  induction keys with
  | nil =>
    intro i h
    simp [find_key_offset] at h
  | cons k rest ih =>
    intro i h
    simp only [find_key_offset] at h
    split at h
    · simp only [Option.some.injEq] at h
      simp [← h]
    · cases hf : find_key_offset inp kt n rest with
      | none =>
        rw [hf] at h
        simp at h
      | some j =>
        rw [hf] at h
        simp at h
        have := ih j hf
        simp only [List.length_cons]
        omega

/-- The key entry the draft works on is either one of the stored entries or
the freshly appended entry anchored at the match position. -/
theorem resolve_key_offset_getD (inp kt : List Token) (n m mp : Nat)
    (keys : List common_ngram_map_key) :
    (resolve_key_offset inp kt n m mp keys).2.getD
        (resolve_key_offset inp kt n m mp keys).1 default ∈ keys ∨
    (resolve_key_offset inp kt n m mp keys).2.getD
        (resolve_key_offset inp kt n m mp keys).1 default = new_ngram_map_key mp m := by
  unfold resolve_key_offset
  cases hf : find_key_offset inp kt n keys with
  | some i =>
    left
    have hi := find_key_offset_lt inp kt n keys i hf
    dsimp only
    rw [List.getD_eq_getElem?_getD, List.getElem?_eq_getElem hi]
    exact List.getElem_mem hi
  | none =>
    right
    dsimp only
    rw [List.getD_eq_getElem?_getD, List.getElem?_concat_length]
    rfl


/-- C10: for a statistical-cache draft call with key length at least 1
whose stored anchors are well formed for the current history (which is
exactly what recording them during earlier draft calls on prefixes of this
history establishes), every history index read during the backward key
search, the key-entry content comparison, the statistics-refresh window
scans and the draft copy — all collected in
`common_ngram_map_draft_reads` — is strictly below `len(history)`, so the
out-of-bounds branch of the embedded indexing (`tokAt`) is never taken.
The guard branches are part of the collection: a call that fails the
guard or throttle reads nothing. -/
theorem claim_C10_draft_reads_in_bounds (map : common_ngram_map)
    (inp : List Token) (sampled : Token)
    (hn : 1 ≤ map.size_key)
    (hwf : anchors_wf map inp.length) :
    ∀ i ∈ common_ngram_map_draft_reads map inp sampled, i < inp.length := by
  intro i hi
  simp only [common_ngram_map_draft_reads] at hi
  have hmp_le := find_match_backward_le
    (key_match_at inp (build_pattern inp map.size_key sampled) map.size_key)
    (inp.length - map.size_key - map.size_value - 1)
  split_ifs at hi with h1 h2 h3 h4 h5
  · simp at hi
  · simp at hi
  · rcases List.mem_append.mp hi with hk | hs
    · have := window_bounds hk
      omega
    · rw [List.mem_flatMap] at hs
      obtain ⟨t, ht, hw⟩ := hs
      rw [List.mem_range] at ht
      have := window_bounds hw
      omega
  · rcases List.mem_append.mp hi with hb | hc
    · rcases List.mem_append.mp hb with hb2 | hl
      · rcases List.mem_append.mp hb2 with hk | hs
        · have := window_bounds hk
          omega
        · rw [List.mem_flatMap] at hs
          obtain ⟨t, ht, hw⟩ := hs
          rw [List.mem_range] at ht
          have := window_bounds hw
          omega
      · rw [List.mem_flatMap] at hl
        obtain ⟨k, hkmem, hw⟩ := hl
        have hwfk := (hwf k hkmem).1
        have := window_bounds hw
        omega
    · have hb := window_bounds hc
      have hlt : i < find_match_backward
          (key_match_at inp (build_pattern inp map.size_key sampled) map.size_key)
          (inp.length - map.size_key - map.size_value - 1) + map.size_key +
          map.size_value :=
        Nat.lt_of_lt_of_le hb.2 (Nat.add_le_add_left (Nat.min_le_left _ _) _)
      omega
  · rcases List.mem_append.mp hi with hb2 | hl
    · rcases List.mem_append.mp hb2 with hk | hs
      · have := window_bounds hk
        omega
      · rw [List.mem_flatMap] at hs
        obtain ⟨t, ht, hw⟩ := hs
        rw [List.mem_range] at ht
        have := window_bounds hw
        omega
    · rw [List.mem_flatMap] at hl
      obtain ⟨k, hkmem, hw⟩ := hl
      have hwfk := (hwf k hkmem).1
      have := window_bounds hw
      omega
  · rcases List.mem_append.mp hi with hx | hc
    · rcases List.mem_append.mp hx with hy | hv
      · rcases List.mem_append.mp hy with hz | hr
        · rcases List.mem_append.mp hz with hb2 | hl
          · rcases List.mem_append.mp hb2 with hk | hs
            · have := window_bounds hk
              omega
            · rw [List.mem_flatMap] at hs
              obtain ⟨t, ht, hw⟩ := hs
              rw [List.mem_range] at ht
              have := window_bounds hw
              omega
          · rw [List.mem_flatMap] at hl
            obtain ⟨k, hkmem, hw⟩ := hl
            have hwfk := (hwf k hkmem).1
            have := window_bounds hw
            omega
        · rw [List.mem_flatMap] at hr
          obtain ⟨p, hp, hw⟩ := hr
          have hpb := mem_refresh_positions.mp hp
          rcases List.mem_append.mp hw with hw1 | hw2
          · have := window_bounds hw1
            omega
          · have := window_bounds hw2
            omega
      · rw [List.mem_flatMap] at hv
        obtain ⟨v, hvmem, hw⟩ := hv
        by_cases hv0 : v.value_idx = 0
        · rw [if_pos hv0] at hw
          simp at hw
        · rw [if_neg hv0] at hw
          have hvb := window_bounds hw
          rcases resolve_key_offset_getD inp
              (build_pattern inp map.size_key sampled)
              map.size_key map.size_value
              (find_match_backward (key_match_at inp
                (build_pattern inp map.size_key sampled) map.size_key)
                (inp.length - map.size_key - map.size_value - 1))
              map.keys with hmem | hnew
          · have hwfv := (hwf _ hmem).2 v hvmem hv0
            omega
          · rw [hnew] at hvmem
            simp [new_ngram_map_key, List.mem_replicate] at hvmem
            obtain ⟨hcap, hveq⟩ := hvmem
            subst hveq
            simp at hv0
    · have := window_bounds hc
      omega

/-- Witness for C10: for the one-key cache after the first example call,
stepping on the grown history, all collected reads are below the history
length 7. -/
theorem claim_C10_draft_reads_in_bounds_witness :
    (3 : Nat) < ngram_ex_inp2.length :=
  claim_C10_draft_reads_in_bounds ngram_ex_map1 ngram_ex_inp2 5
    (by decide) (by unfold anchors_wf; decide) 3 (by decide)
